import Mathlib

/-!
Shallow embedding of `src/main.go` (a one-shot web page analyzer: structural
extraction, link classification, and a concurrent link health checker), together
with theorems settling the specification claims about it.

External collaborators (the HTTP fetch and the goquery HTML parser) are
represented at their boundary: a parsed document is a list of element tags for
heading extraction, a list of optional `href` attributes for link extraction,
and a serialized markup string for version detection.
-/

namespace GoWeb

/-- Go `strings.HasPrefix` on rune lists: second argument is the candidate
starting segment of the first. -/
def listStarts : List Char → List Char → Bool
  | _, [] => true
  | [], _ :: _ => false
  | c :: cs, p :: ps => c == p && listStarts cs ps

/-- Go `strings.HasPrefix s pre`. -/
def goStarts (s pre : String) : Bool :=
  listStarts s.toList pre.toList

/-- Go `strings.Contains` on rune lists: does `sub` occur as a contiguous
segment of `s`? -/
def listContains : List Char → List Char → Bool
  | [], sub => sub.isEmpty
  | c :: cs, sub => listStarts (c :: cs) sub || listContains cs sub

/-- Go `strings.Contains s sub`. -/
def goContains (s sub : String) : Bool :=
  listContains s.toList sub.toList

/-- `Filter` from main.go lines 97-104: a loop that appends to `filtered`
every element on which `f` returns true. -/
def Filter (ss : List String) (f : String → Bool) : List String :=
  ss.foldl (fun filtered s => if f s then filtered ++ [s] else filtered) []

/-- The `findinternals` closure from main.go lines 62-64, with the captured
`baseURL` made an explicit parameter: a link is internal when it starts with
the base URL, with `/`, or with `#`. -/
def findinternals (baseURL : String) (s : String) : Bool :=
  goStarts s baseURL || goStarts s "/" || goStarts s "#"

/-- main.go line 65: `internals := Filter(fresult.urls, findinternals)`. -/
def internals (baseURL : String) (urls : List String) : List String :=
  Filter urls (findinternals baseURL)

/-- The external links are the complement of the internal ones (main.go line 66
reports their count as `len(fresult.urls)-len(internals)`). -/
def externals (baseURL : String) (urls : List String) : List String :=
  Filter urls (fun s => !(findinternals baseURL s))

/-- Go `strings.ToUpper` (character-wise upper-casing; the inputs here are
ASCII, where Go's mapping and `Char.toUpper` agree). -/
def goToUpper (s : String) : String :=
  String.mk (s.toList.map Char.toUpper)

/-- The `containsLoginByURL` closure from main.go lines 69-72: uppercase the
link and look for `LOGIN` or `SIGNIN`. -/
def containsLoginByURL (il : String) : Bool :=
  let s := goToUpper il
  goContains s "LOGIN" || goContains s "SIGNIN"

/-- main.go line 73: `login := Filter(internals, containsLoginByURL)`. -/
def login (baseURL : String) (urls : List String) : List String :=
  Filter (internals baseURL urls) containsLoginByURL

/-- `Contains` from main.go lines 167-174: linear scan for `url` in `urls`. -/
def Contains : List String → String → Bool
  | [], _ => false
  | v :: rest, url => if v == url then true else Contains rest url

/-- goquery `s.Attr("href")` as used at main.go line 158: the attribute value,
the empty string when the anchor has no `href` (the `exists` flag is dropped). -/
def href (a : Option String) : String := a.getD ""

/-- One iteration of the `doc.Find("a").Each` body in `getURLs`
(main.go lines 157-162): append the href unless already present. -/
def urlStep (foundUrls : List String) (a : Option String) : List String :=
  if Contains foundUrls (href a) then foundUrls else foundUrls ++ [href a]

/-- `getURLs` from main.go lines 155-164 over the document's anchor elements
(given by their optional `href` attributes, in document order). -/
def getURLs (anchors : List (Option String)) : List String :=
  anchors.foldl urlStep []

/-- The six keys of the headings map, main.go lines 136-143. -/
def headingTags : List String := ["h1", "h2", "h3", "h4", "h5", "h6"]

/-- The `Each` loop body of `getHeadings` (main.go line 147) executes
`hs["h"+str] = +1` once per matching element: an ASSIGNMENT of `+1`, so the
final value is `1` when at least one element matches and the initial `0`
otherwise. The document is given by the list of its element tags. -/
def headingAssign (doc : List String) (tag : String) : Nat :=
  (doc.filter (fun e => e == tag)).foldl (fun _ _ => 1) 0

/-- `getHeadings` from main.go lines 135-151: the map from `h1..h6` to the
value left by the assignment loop. -/
def getHeadings (doc : List String) : List (String × Nat) :=
  headingTags.map (fun t => (t, headingAssign doc t))

/-- The number of elements of the document carrying `tag` — the counting
semantics the spec states for `headingCounts` (spec §4.2, §8), to be compared
with `getHeadings`. -/
def specHeadingCount (doc : List String) (tag : String) : Nat :=
  (doc.filter (fun e => e == tag)).length

/-- The `doctypes` table of `versionReader`, main.go lines 178-187. In Go this
is a map with UNSPECIFIED iteration order; here it is the textual order of the
literal, and `versionReaderOrd` takes the iteration order as a parameter. -/
def doctypes : List (String × String) :=
  [("HTML 5", "<!DOCTYPE html>"),
   ("HTML 4.01 Strict", "\"-//W3C//DTD HTML 4.01//EN\""),
   ("HTML 4.01 Transitional", "\"-//W3C//DTD HTML 4.01 Transitional//EN\""),
   ("HTML 4.01 Frameset", "\"-//W3C//DTD HTML 4.01 Frameset//EN\""),
   ("XHTML 1.0 Strict", "\"-//W3C//DTD XHTML 1.0 Strict//EN\""),
   ("XHTML 1.0 Transitional", "\"-//W3C//DTD XHTML 1.0 Transitional//EN\""),
   ("XHTML 1.0 Frameset", "\"-//W3C//DTD XHTML 1.0 Frameset//EN\""),
   ("XHTML 1.1", "\"-//W3C//DTD XHTML 1.1//EN\"")]

/-- The loop of `versionReader` (main.go lines 193-198) run over a given
iteration order of the table: `version = d` on every match, so the LAST
matching entry of the iteration wins; `""` when nothing matches. Any
permutation of `doctypes` is a possible Go map iteration order. -/
def versionReaderOrd (order : List (String × String)) (html : String) : String :=
  order.foldl (fun version dm => if goContains html dm.2 then dm.1 else version) ""

/-! ## The health-checker channel protocol

main.go lines 81-92 and 107-116: one goroutine per link runs `pingLink`; a
failed `http.Get` sends the link on the shared channel `c`, a successful one
sleeps and then CLOSES `c`. The main goroutine ranges over `c`, reaching its
Done state (the final report) only when `c` is closed. We model the events the
goroutines emit and every interleaving of them, with Go's channel semantics:
send on a closed channel panics, closing a closed channel panics. -/

inductive PingEvent where
  | send : String → PingEvent
  | closeCh : PingEvent
deriving DecidableEq, Repr

/-- The events one `pingLink` goroutine emits (main.go lines 107-116):
a failing probe sends the link, a successful probe closes the channel. -/
def linkEvents (link : String) (reachable : Bool) : List PingEvent :=
  if reachable then [PingEvent.closeCh] else [PingEvent.send link]

/-- All events emitted for a run over `links` (each link paired with whether
its probe succeeds); a schedule is any permutation of these. -/
def allEvents (links : List (String × Bool)) : List PingEvent :=
  (links.map (fun lb => linkEvents lb.1 lb.2)).flatten

/-- Channel/aggregator state: the links received so far (the `ia` slice of
main.go lines 88-91), whether `c` has been closed (which is what releases the
main goroutine's `range` loop into Done), and whether the run has panicked. -/
structure ChanState where
  received : List String
  closed : Bool
  crashed : Bool
deriving DecidableEq, Repr

def initChan : ChanState := ⟨[], false, false⟩

/-- One event against Go channel semantics: a send on a closed channel or a
second close panics the program; otherwise a send is received by the ranging
main goroutine and a close marks the channel closed. -/
def stepChan (st : ChanState) (e : PingEvent) : ChanState :=
  if st.crashed then st
  else
    match e with
    | PingEvent.send l =>
        if st.closed then { st with crashed := true }
        else { st with received := st.received ++ [l] }
    | PingEvent.closeCh =>
        if st.closed then { st with crashed := true }
        else { st with closed := true }

/-- Run a whole schedule of probe events. -/
def runPing (sched : List PingEvent) : ChanState :=
  sched.foldl stepChan initChan

/-! ## Helper lemmas -/

theorem Filter_go (f : String → Bool) :
    ∀ (ss acc : List String),
      ss.foldl (fun filtered s => if f s then filtered ++ [s] else filtered) acc
        = acc ++ ss.filter f := by
  intro ss
  induction ss with
  | nil => intro acc; simp
  | cons x xs ih =>
      intro acc
      by_cases h : f x <;> simp [List.foldl_cons, h, ih, List.filter_cons]

theorem Filter_eq (ss : List String) (f : String → Bool) :
    Filter ss f = ss.filter f := by
  simpa using Filter_go f ss []

theorem Contains_iff : ∀ (l : List String) (u : String), Contains l u = true ↔ u ∈ l := by
  intro l u
  induction l with
  | nil => simp [Contains]
  | cons v rest ih =>
      by_cases h : v = u
      · simp [Contains, h]
      · have h2 : ¬u = v := fun hh => h hh.symm
        simp [Contains, h, h2, ih]

theorem getURLs_go_mem :
    ∀ (anchors : List (Option String)) (acc : List String) (u : String),
      u ∈ anchors.foldl urlStep acc ↔ u ∈ acc ∨ u ∈ anchors.map href := by
  intro anchors
  induction anchors with
  | nil => intro acc u; simp
  | cons a l ih =>
      intro acc u
      by_cases h : Contains acc (href a) = true
      · have ha : href a ∈ acc := (Contains_iff acc (href a)).mp h
        simp only [List.foldl_cons, urlStep, h, if_pos, List.map_cons, List.mem_cons]
        rw [ih]
        constructor
        · rintro (hu | hu)
          · exact Or.inl hu
          · exact Or.inr (Or.inr hu)
        · rintro (hu | hu | hu)
          · exact Or.inl hu
          · exact Or.inl (hu ▸ ha)
          · exact Or.inr hu
      · simp only [List.foldl_cons, urlStep, h, if_neg, List.map_cons, List.mem_cons,
          Bool.not_eq_true] at *
        rw [ih]
        simp only [List.mem_append, List.mem_singleton]
        tauto

theorem getURLs_go_nodup :
    ∀ (anchors : List (Option String)) (acc : List String),
      acc.Nodup → (anchors.foldl urlStep acc).Nodup := by
  intro anchors
  induction anchors with
  | nil => intro acc h; simpa using h
  | cons a l ih =>
      intro acc h
      by_cases hc : Contains acc (href a) = true
      · simpa [List.foldl_cons, urlStep, hc] using ih acc h
      · have hnotmem : href a ∉ acc := fun hm => hc ((Contains_iff acc (href a)).mpr hm)
        have : (acc ++ [href a]).Nodup := by
          simp [List.nodup_append, h, hnotmem]
        simpa [List.foldl_cons, urlStep, hc] using ih (acc ++ [href a]) this

theorem getURLs_go_sublist :
    ∀ (anchors : List (Option String)) (acc : List String),
      ∃ r, anchors.foldl urlStep acc = acc ++ r ∧ r.Sublist (anchors.map href) := by
  intro anchors
  induction anchors with
  | nil => intro acc; exact ⟨[], by simp, by simp⟩
  | cons a l ih =>
      intro acc
      by_cases hc : Contains acc (href a) = true
      · obtain ⟨r, hr, hs⟩ := ih acc
        exact ⟨r, by simpa [List.foldl_cons, urlStep, hc] using hr,
          by simpa using hs.cons (href a)⟩
      · obtain ⟨r, hr, hs⟩ := ih (acc ++ [href a])
        refine ⟨href a :: r, ?_, ?_⟩
        · simpa [List.foldl_cons, urlStep, hc, List.append_assoc] using hr
        · simpa using hs.cons₂ (href a)

theorem listStarts_nil : ∀ l : List Char, listStarts l [] = true := by
  intro l; cases l <;> rfl

theorem findinternals_empty (s : String) : findinternals "" s = true := by
  have h : goStarts s "" = true := listStarts_nil s.toList
  simp [findinternals, h]

theorem closed_of_no_close :
    ∀ (sched : List PingEvent) (st : ChanState),
      PingEvent.closeCh ∉ sched → (sched.foldl stepChan st).closed = st.closed := by
  intro sched
  induction sched with
  | nil => intro st _; rfl
  | cons e l ih =>
      intro st hmem
      have he : e ≠ PingEvent.closeCh := fun h => hmem (h ▸ List.mem_cons_self e l)
      have hl : PingEvent.closeCh ∉ l := fun h => hmem (List.mem_cons_of_mem e h)
      rw [List.foldl_cons, ih _ hl]
      cases e with
      | closeCh => exact absurd rfl he
      | send u =>
          by_cases hcr : (st.crashed : Prop) <;> by_cases hcl : (st.closed : Prop) <;>
            simp [stepChan, hcr, hcl]

theorem allEvents_no_close (links : List (String × Bool))
    (hfail : ∀ lb ∈ links, lb.2 = false) : PingEvent.closeCh ∉ allEvents links := by
  intro hmem
  simp only [allEvents, List.mem_flatten, List.mem_map] at hmem
  obtain ⟨evs, ⟨lb, hlb, hev⟩, hin⟩ := hmem
  rw [hfail lb hlb] at hev
  rw [← hev] at hin
  simp [linkEvents] at hin

/-! ## Claim theorems -/

/-- C1: the claim says the health checker produces exactly N outcomes before
Done, with N = 0 yielding an immediate Done. In the code the channel is closed
only inside a SUCCESSFUL probe goroutine, so whenever every probe fails — in
particular when N = 0 and there are no probes at all — no schedule of the
emitted events ever closes the channel, the aggregator's `range` loop never
terminates, and Done is never reached (instead of the claimed immediate
`Done({})` at N = 0). -/
theorem C1_no_success_means_never_done (links : List (String × Bool))
    (hfail : ∀ lb ∈ links, lb.2 = false)
    (sched : List PingEvent) (hs : sched.Perm (allEvents links)) :
    (runPing sched).closed = false := by
  have hnc : PingEvent.closeCh ∉ sched := fun hm =>
    allEvents_no_close links hfail (hs.mem_iff.mp hm)
  exact closed_of_no_close sched initChan hnc

/-- C1 witness: the N = 0 instance — no links, the empty schedule is the only
interleaving, and the channel is never closed. -/
theorem C1_no_success_means_never_done_witness :
    (∀ lb ∈ ([] : List (String × Bool)), lb.2 = false) ∧ (runPing []).closed = false :=
  ⟨fun lb h => absurd h (List.not_mem_nil lb),
   C1_no_success_means_never_done [] (fun lb h => absurd h (List.not_mem_nil lb)) []
     (by decide)⟩

/-- C2: the claim says each heading count equals the exact number of matching
elements (two `h3` elements give count 2). The code's loop body executes
`hs["h"+str] = +1` — an assignment of `1`, not an increment — so a document
with two `h3` elements gets `h3 ↦ 1` while the specified count is `2`. -/
theorem C2_heading_assignment_is_presence_flag :
    getHeadings ["h3", "h3"]
        = [("h1", 0), ("h2", 0), ("h3", 1), ("h4", 0), ("h5", 0), ("h6", 0)]
      ∧ specHeadingCount ["h3", "h3"] "h3" = 2 :=
  ⟨rfl, rfl⟩

/-- The markup used to exhibit C3's order sensitivity: it contains both the
HTML 5 signature and the XHTML 1.1 public identifier. -/
def racyHtml : String := "<!DOCTYPE html> \"-//W3C//DTD XHTML 1.1//EN\""

/-- C3: the claim says the detector returns the FIRST matching standard of a
stable, deterministic scan. The code iterates a Go map (unspecified,
run-to-run-varying order) and keeps the LAST match: on markup containing two
signatures, two possible iteration orders of the same table return different
standards, so the result is neither first-match nor deterministic. -/
theorem C3_version_detector_order_sensitive :
    versionReaderOrd doctypes racyHtml = "XHTML 1.1"
      ∧ versionReaderOrd doctypes.reverse racyHtml = "HTML 5"
      ∧ (doctypes.reverse).Perm doctypes :=
  ⟨rfl, rfl, List.reverse_perm doctypes⟩

/-- C4: for every base URL and link list, the internal/external classification
is an exhaustive and disjoint partition of the links: every link lands in
exactly one side, and the two lengths add up to the total (the quantity
main.go line 66 prints). -/
theorem C4_partition_exhaustive_disjoint (baseURL : String) (links : List String) :
    (∀ u, u ∈ links ↔ (u ∈ internals baseURL links ∨ u ∈ externals baseURL links))
      ∧ (∀ u, ¬(u ∈ internals baseURL links ∧ u ∈ externals baseURL links))
      ∧ (internals baseURL links).length + (externals baseURL links).length
          = links.length := by
  refine ⟨?_, ?_, ?_⟩
  · intro u
    simp only [internals, externals, Filter_eq, List.mem_filter, Bool.not_eq_true]
    by_cases h : findinternals baseURL u = true <;> simp [h]
  · intro u hu
    simp only [internals, externals, Filter_eq, List.mem_filter] at hu
    have h1 := hu.1.2
    have h2 := hu.2.2
    rw [h1] at h2
    exact absurd h2 (by simp)
  · have hperm := List.filter_append_perm (findinternals baseURL) links
    have := hperm.length_eq
    simpa [internals, externals, Filter_eq, List.length_append] using this

/-- C5: for every document, the extracted link list has no duplicates, contains
exactly the hrefs of the document's anchors (empty string for a missing href),
and is a subsequence of the anchor hrefs in document order (duplicates removed
on first occurrence). -/
theorem C5_links_nodup_first_occurrence (anchors : List (Option String)) :
    (getURLs anchors).Nodup
      ∧ (∀ u, u ∈ getURLs anchors ↔ u ∈ anchors.map href)
      ∧ (getURLs anchors).Sublist (anchors.map href) := by
  refine ⟨getURLs_go_nodup anchors [] List.nodup_nil, ?_, ?_⟩
  · intro u
    simpa using getURLs_go_mem anchors [] u
  · obtain ⟨r, hr, hs⟩ := getURLs_go_sublist anchors []
    rw [getURLs, hr]
    simpa using hs

/-- The links of C6's failing run: one reachable, one unreachable. -/
def C6links : List (String × Bool) := [("http://ok.test/", true), ("http://down.test/", false)]

/-- C6's schedule: the successful probe's `close(c)` fires before the failed
probe's send — a possible interleaving, since the goroutines are independent. -/
def C6sched : List PingEvent := [PingEvent.closeCh, PingEvent.send "http://down.test/"]

/-- C6: the claim says a failed probe is surfaced as membership in the
unreachable set and never aborts the run. In the code, once the successful
probe closes the shared channel, the failed probe's send panics the program
(send on closed channel) and the failed link is absent from the collected
unreachable list: the run aborts and the failure is lost. -/
theorem C6_probe_failure_lost_and_run_panics :
    C6sched = allEvents C6links
      ∧ (runPing C6sched).crashed = true
      ∧ (runPing C6sched).received = [] :=
  ⟨rfl, rfl, rfl⟩

/-- C7: `login` is exactly the subset of the internal links whose uppercased
value contains `LOGIN` or `SIGNIN`; on the spec's scenario (base URL
`http://x.test/`) the internal links are `http://x.test/login` and `/about`,
and the only login candidate is `http://x.test/login`. -/
theorem C7_login_candidates (baseURL : String) (urls : List String) :
    (∀ u, u ∈ login baseURL urls
        ↔ u ∈ internals baseURL urls ∧ containsLoginByURL u = true)
      ∧ internals "http://x.test/" ["http://x.test/login", "/about", "http://other.test/"]
          = ["http://x.test/login", "/about"]
      ∧ login "http://x.test/" ["http://x.test/login", "/about", "http://other.test/"]
          = ["http://x.test/login"] := by
  refine ⟨?_, by decide, by decide⟩
  intro u
  simp [login, Filter_eq, List.mem_filter]

/-- C8: `Filter` returns exactly the elements satisfying the predicate, as an
order-preserving subsequence of its input, and nothing that fails the
predicate. -/
theorem C8_Filter_correct (ss : List String) (f : String → Bool) :
    Filter ss f = ss.filter f
      ∧ (∀ s ∈ Filter ss f, f s = true)
      ∧ (Filter ss f).Sublist ss
      ∧ (∀ s ∈ ss, f s = true → s ∈ Filter ss f) := by
  refine ⟨Filter_eq ss f, ?_, ?_, ?_⟩
  · intro s hs
    rw [Filter_eq] at hs
    exact (List.mem_filter.mp hs).2
  · rw [Filter_eq]
    exact List.filter_sublist ss
  · intro s hs hf
    rw [Filter_eq]
    exact List.mem_filter.mpr ⟨hs, hf⟩

/-- C9: an anchor with no `href` contributes the empty string, exactly like an
anchor with `href=""` (the two documents produce the same link list), and after
deduplication the link list holds at most one empty-string entry. -/
theorem C9_missing_href_is_empty_string (anchors : List (Option String)) :
    getURLs (none :: anchors) = getURLs (some "" :: anchors)
      ∧ (getURLs anchors).count "" ≤ 1 := by
  refine ⟨rfl, ?_⟩
  exact List.nodup_iff_count_le_one.mp (getURLs_go_nodup anchors [] List.nodup_nil) ""

/-- C10: with the empty base URL every link starts with `""`, so the classifier
marks every link internal and the external side is empty. -/
theorem C10_empty_base_all_internal (links : List String) :
    internals "" links = links ∧ externals "" links = [] := by
  constructor
  · rw [internals, Filter_eq]
    exact List.filter_eq_self.mpr fun u _ => findinternals_empty u
  · rw [externals, Filter_eq]
    apply List.filter_eq_nil_iff.mpr
    intro u _
    simp [findinternals_empty u]

end GoWeb
